import Mathlib

/-!
Shallow embedding of the dynamic-batching compute path of
`tensorflow::neuron::NeuronModel` (src/runtime/model.cc) and proofs of the
spec claims about it.  Machine integers of the source (`int64_t`, `size_t`)
are modelled as `Int`/`Nat`; tensor shapes are lists of dimension sizes;
the device collaborator's calls are modelled as an explicit event trace.
-/

namespace NeuronTF

/-! ## Status codes and the RIE_IGNORE_ABORTED macro (model.cc lines 28-34) -/

/-- TensorFlow status codes relevant to this file. -/
inductive Code
  | ok
  | cancelled
  | invalidArgument
  | failedPrecondition
  | aborted
  | internal
  | unavailable
  | unknown
deriving DecidableEq

/-- A TensorFlow `Status`: a code plus a message; `code = Code.ok` is OK. -/
structure Status where
  code : Code
  msg : String
deriving DecidableEq

/-- Embedding of the `RIE_IGNORE_ABORTED` macro (model.cc lines 28-34):
`if (status.code() != ABORTED) { TF_RETURN_IF_ERROR(status); }` -- an
ABORTED status is swallowed, any other non-OK status is returned. -/
def rieIgnoreAborted (s : Status) : Except Status Unit :=
  if s.code ≠ Code.aborted then
    if s.code ≠ Code.ok then Except.error s else Except.ok ()
  else Except.ok ()

/-! ## Errors raised by the compute path itself -/

/-- The error constructors used by `NeuronModel::compute` and its helpers
(`errors::InvalidArgument`, `errors::Internal`, `errors::FailedPrecondition`). -/
inductive Err
  | invalidArgument (msg : String)
  | internal (msg : String)
  | failedPrecondition (msg : String)
deriving DecidableEq

/-! ## Static metadata and tensor sizes (model.cc lines 43-88) -/

/-- `get_tensor_size` (model.cc lines 43-47): dtype size times number of
elements of the declared shape. -/
def get_tensor_size (dtypeSize : Nat) (shape : List Nat) : Nat :=
  dtypeSize * shape.prod

/-- The `NodeDef` attribute lists that `NeuronModel::compute` reads.
Dtypes are represented by their byte sizes (`DataTypeSize`). -/
structure Meta where
  inputNames : List String
  inputDtypeSizes : List Nat
  inputShapes : List (List Nat)
  outputNames : List String
  outputDtypeSizes : List Nat
  outputShapes : List (List Nat)
  inputBatchAxis : List Int
  outputBatchAxis : List Int
deriving DecidableEq

/-- `get_io_tensor_sizes` (model.cc lines 49-88): fails with
`FailedPrecondition` when the input (resp. output) name/dtype/shape lists
have mismatched lengths, otherwise returns the per-tensor byte sizes. -/
def get_io_tensor_sizes (m : Meta) : Except Err (List Nat × List Nat) :=
  if m.inputNames.length ≠ m.inputDtypeSizes.length
      ∨ m.inputNames.length ≠ m.inputShapes.length then
    Except.error (Err.failedPrecondition "incorrect number of inputs")
  else if m.outputNames.length ≠ m.outputDtypeSizes.length
      ∨ m.outputNames.length ≠ m.outputShapes.length then
    Except.error (Err.failedPrecondition "incorrect number of outputs")
  else
    Except.ok
      ((m.inputDtypeSizes.zip m.inputShapes).map fun p => get_tensor_size p.1 p.2,
       (m.outputDtypeSizes.zip m.outputShapes).map fun p => get_tensor_size p.1 p.2)

/-! ## Batch-size analysis (model.cc lines 173-247) -/

/-- `UNINIT_BATCH_SIZE` (model.cc line 41): magic number for an
uninitialized batch size. -/
def UNINIT_BATCH_SIZE : Int := -8

/-- The mutable analysis state of the loops at model.cc lines 192-246:
`batch_size`, `k_batch_size` and `use_dynamic_batch_size`. -/
structure BatchSt where
  batchSize : Int
  kBatchSize : Int
  useDyn : Bool
deriving DecidableEq

/-- Initial state (model.cc lines 173-177). -/
def initBatchSt : BatchSt :=
  { batchSize := UNINIT_BATCH_SIZE, kBatchSize := UNINIT_BATCH_SIZE, useDyn := false }

/-- One iteration of the input loop (model.cc lines 192-227) for the tensor
with batch axis `axis`, runtime shape `shape` and declared shape `kshape`.
Returns the updated state and the tensor's `is_batch_input_tensors` flag. -/
def procOneInput (st : BatchSt) (axis : Int) (shape kshape : List Nat) :
    Except Err (BatchSt × Bool) :=
  if axis = 0 then
    if shape.length = 0 then
      Except.error (Err.invalidArgument "no batch-dimension found on input tensor")
    else if st.batchSize = UNINIT_BATCH_SIZE then
      if (shape.headD 0 : Int) > 0 then
        if shape.tail = kshape.tail then
          Except.ok
            ({ batchSize := (shape.headD 0 : Int), kBatchSize := (kshape.headD 0 : Int),
               useDyn := decide ((shape.headD 0 : Int) ≠ (kshape.headD 0 : Int)) },
             decide ((shape.headD 0 : Int) ≠ (kshape.headD 0 : Int)))
        else Except.error (Err.invalidArgument "incorrect shape found on input tensor")
      else Except.error (Err.internal "incorrect internal batch size inferred from input tensor")
    else if st.batchSize = (shape.headD 0 : Int) then
      if shape.tail = kshape.tail then
        Except.ok
          ({ st with useDyn := decide (st.batchSize ≠ st.kBatchSize) },
           decide (st.batchSize ≠ st.kBatchSize))
      else Except.error (Err.invalidArgument "incorrect shape found on input tensor")
    else Except.error (Err.invalidArgument "incorrect batch size found on input tensor")
  else
    if shape = kshape then Except.ok (st, false)
    else Except.error (Err.invalidArgument "incorrect shape found on input tensor")

/-- The input loop (model.cc lines 192-227) over the per-tensor triples
`(batch axis, runtime shape, declared shape)`. -/
def procInputs (st : BatchSt) : List (Int × List Nat × List Nat) →
    Except Err (BatchSt × List Bool)
  | [] => Except.ok (st, [])
  | (a, s, k) :: ts =>
    match procOneInput st a s k with
    | Except.error e => Except.error e
    | Except.ok (st1, f) =>
      match procInputs st1 ts with
      | Except.error e => Except.error e
      | Except.ok (st2, fs) => Except.ok (st2, f :: fs)

/-- One iteration of the output loop (model.cc lines 228-246): returns the
output tensor's `is_batch_output_tensors` flag. -/
def procOneOutput (st : BatchSt) (axis : Int) (kshape : List Nat) :
    Except Err Bool :=
  if axis = 0 then
    if kshape.length = 0 then
      Except.error (Err.invalidArgument "no batch-dimension found on output tensor")
    else if st.kBatchSize = (kshape.headD 0 : Int) then
      Except.ok (decide (st.batchSize ≠ (kshape.headD 0 : Int)))
    else Except.error (Err.invalidArgument "incorrect batch size found on output tensor")
  else Except.ok false

/-- The output loop (model.cc lines 228-246). -/
def procOutputs (st : BatchSt) : List (Int × List Nat) → Except Err (List Bool)
  | [] => Except.ok []
  | (a, k) :: ts =>
    match procOneOutput st a k with
    | Except.error e => Except.error e
    | Except.ok f =>
      match procOutputs st ts with
      | Except.error e => Except.error e
      | Except.ok fs => Except.ok (f :: fs)

/-- The result of the batch-analysis block. -/
structure ARes where
  inFlags : List Bool
  outFlags : List Bool
  useDyn : Bool
  batchSize : Int
  kBatchSize : Int
deriving DecidableEq

/-- The batch-analysis block (model.cc lines 173-247).  `nIn` is the number
of input tensors (already asserted equal to `input_names` size at line 167),
`nOut` the number of outputs (asserted equal to `output_names` size at
line 248 before the flags are used), `nOutNames` the `output_names` size
used by the guard at lines 189-190.  If no input declares batch axis other
than `-1`, or the axis-list lengths mismatch the name-list lengths, the
whole block is skipped and all flags stay `false` (lines 175-176, 182-190). -/
def batchAnalysis (nIn nOut nOutNames : Nat) (inAxes : List Int)
    (rtShapes kShapes : List (List Nat)) (outAxes : List Int)
    (outKshapes : List (List Nat)) : Except Err ARes :=
  if (inAxes.any fun a => a ≠ -1) ∧ nIn = inAxes.length ∧ nOutNames = outAxes.length then
    match procInputs initBatchSt (inAxes.zip (rtShapes.zip kShapes)) with
    | Except.error e => Except.error e
    | Except.ok (st, inF) =>
      match procOutputs st (outAxes.zip outKshapes) with
      | Except.error e => Except.error e
      | Except.ok outF =>
        Except.ok { inFlags := inF, outFlags := outF, useDyn := st.useDyn,
                    batchSize := st.batchSize, kBatchSize := st.kBatchSize }
  else
    Except.ok { inFlags := List.replicate nIn false,
                outFlags := List.replicate nOut false, useDyn := false,
                batchSize := UNINIT_BATCH_SIZE, kBatchSize := UNINIT_BATCH_SIZE }

/-! ## Batch-plan arithmetic (model.cc lines 255-301, 353-358, 406-411) -/

/-- `pad_batch_size = ((batch_size - 1) / k_batch_size + 1) * k_batch_size`
(model.cc line 255). -/
def padBatchSize (R H : Nat) : Nat := ((R - 1) / H + 1) * H

/-- `num_batches = pad_batch_size / k_batch_size` (model.cc line 267). -/
def numBatches (R H : Nat) : Nat := padBatchSize R H / H

/-- `window_size` (model.cc lines 300-301):
`max_num_infers_ > 1 ? max_num_infers_ : 1`, clamped to `num_batches`. -/
def windowSize (maxInfers N : Nat) : Nat :=
  min (if maxInfers > 1 then maxInfers else 1) N

/-- `dim0_start = batch_idx * k_batch_size` (model.cc lines 353, 406). -/
def sliceStart (H b : Nat) : Nat := b * H

/-- The output slice bound `std::min(dim0_limit, batch_size)` with
`dim0_limit = batch_idx * k_batch_size + k_batch_size`
(model.cc lines 354, 357-358 and 407, 410-411). -/
def sliceLimit (R H b : Nat) : Nat := min (b * H + H) R

/-- The first dimension of an allocated output tensor (model.cc lines
257-263): the runtime batch size when the output carries the batch
dimension, otherwise the declared leading dimension. -/
def allocOutputDim0 (isBatchOut : Bool) (batchSize kdim0 : Nat) : Nat :=
  if isBatchOut then batchSize else kdim0

/-- A per-sub-batch input buffer (model.cc lines 272-294): either a
non-copying `Slice` view of the caller's tensor over rows
`[start, limit)`, or a freshly materialized hardware-sized buffer holding
a copy of rows `[copyStart, copyLimit)` followed by `zeroRows` zeroed rows. -/
inductive SubInput
  | view (start limit : Nat)
  | padded (copyStart copyLimit zeroRows : Nat)
deriving DecidableEq

/-- Whether a sub-batch input buffer is a materialized copy. -/
def SubInput.isMaterialized : SubInput → Bool
  | SubInput.padded _ _ _ => true
  | _ => false

/-- The input sub-batch built for batch index `b` (model.cc lines 269-294):
the last sub-batch (`batch_idx == num_batches - 1`) always gets a fresh
zero-padded hardware-sized buffer holding rows `[b*H, R)`; every earlier
sub-batch is the non-copying slice `[b*H, b*H + H)`. -/
def buildInput (R H b : Nat) : SubInput :=
  if b = numBatches R H - 1 then
    SubInput.padded (b * H) R (padBatchSize R H - R)
  else
    SubInput.view (b * H) (b * H + H)

/-! ## Device-call trace of the windowed pipeline (model.cc lines 329-470)

One constructor per call the compute path makes against the device (or the
semaphore) on the error-free run, tagged with the sub-batch index where the
call carries one. -/

/-- Device / semaphore call events emitted by `NeuronModel::compute`. -/
inductive Ev
  | allocOutput (idx : Nat)
  | initModel
  | startModel
  | startPing
  | checkInput (b : Nat)
  | scopedIoSetup (b : Nat)
  | acquireSem (b : Nat)
  | setupInfer (b : Nat)
  | setupInferPost (b : Nat)
  | postInfer (b : Nat)
  | postInferPost (b : Nat)
  | waitInfer (b : Nat)
  | waitInferPost (b : Nat)
  | inferWait (b : Nat)
  | releaseSem
  | finish (b : Nat)
  | inferSingle
deriving DecidableEq

/-- One iteration of the fill loop (model.cc lines 343-393): check the
sliced inputs, set up the scoped runtime I/O, acquire a semaphore token,
then set up and post the request -- via the posted variant when
`post_bidx >= first_need_wait_infer_post_bidx = num_batches - window_size`. -/
def fillStep (N W b : Nat) : List Ev :=
  [Ev.checkInput b, Ev.scopedIoSetup b, Ev.acquireSem b] ++
  (if N - W ≤ b then [Ev.setupInferPost b, Ev.postInferPost b]
   else [Ev.setupInfer b, Ev.postInfer b])

/-- One iteration of the steady "wait one and post one" loop (model.cc
lines 396-446): check and set up the new request `b` (including
`setup_infer`/`setup_infer_post`), then `wait_infer` on the oldest
outstanding request `b - window_size`, then post the new request, then
finish and retire the old one. -/
def steadyStep (N W b : Nat) : List Ev :=
  [Ev.checkInput b, Ev.scopedIoSetup b] ++
  (if N - W ≤ b then [Ev.setupInferPost b] else [Ev.setupInfer b]) ++
  [Ev.waitInfer (b - W)] ++
  (if N - W ≤ b then [Ev.postInferPost b] else [Ev.postInfer b]) ++
  [Ev.finish (b - W)]

/-- One iteration of the drain loop (model.cc lines 459-470): wait for the
oldest remaining request, release one semaphore token, finish it. -/
def drainStep (b : Nat) : List Ev := [Ev.inferWait b, Ev.releaseSem, Ev.finish b]

/-- The fill phase: sub-batches `0 .. window_size - 1` (model.cc line 343). -/
def fillPhase (N W : Nat) : List Ev := ((List.range W).map (fillStep N W)).flatten

/-- The steady phase: sub-batches `window_size .. num_batches - 1`
(model.cc line 396). -/
def steadyPhase (N W : Nat) : List Ev :=
  ((List.range' W (N - W)).map (steadyStep N W)).flatten

/-- The `wait_infer_post` confirmations drained at model.cc lines 451-455:
the posted requests are exactly those with index `≥ num_batches -
window_size`, in submission order. -/
def postWaitPhase (N W : Nat) : List Ev :=
  (List.range' (N - W) W).map Ev.waitInferPost

/-- The final drain (model.cc lines 459-470) over the `window_size`
requests still in `scoped_io_queue`, i.e. the last `window_size`
sub-batches in order. -/
def drainPhase (N W : Nat) : List Ev :=
  ((List.range' (N - W) W).map drainStep).flatten

/-- The full error-free device-call trace of the windowed pipeline for
`num_batches = N` and `window_size = W` (model.cc lines 329-470), starting
with `start_model_unsafe` and `start_ping` (lines 338-341). -/
def pipelineTrace (N W : Nat) : List Ev :=
  Ev.startModel :: Ev.startPing ::
    (fillPhase N W ++ (steadyPhase N W ++ (postWaitPhase N W ++ drainPhase N W)))

/-- The submission (post) event of sub-batch `b`: the posted variant is
used iff `b ≥ num_batches - window_size` (model.cc lines 379, 427, 438). -/
def postEvent (N W b : Nat) : Ev :=
  if N - W ≤ b then Ev.postInferPost b else Ev.postInfer b

/-- The request-setup event of sub-batch `b` (model.cc lines 380, 387,
428, 430). -/
def setupEvent (N W b : Nat) : Ev :=
  if N - W ≤ b then Ev.setupInferPost b else Ev.setupInfer b

/-- Recognizes either post variant: one per submitted sub-batch request. -/
def Ev.isPost : Ev → Bool
  | Ev.postInfer _ => true
  | Ev.postInferPost _ => true
  | _ => false

/-- Recognizes `post_infer_post` events (the "posted" confirmation path). -/
def Ev.isPostInferPost : Ev → Bool
  | Ev.postInferPost _ => true
  | _ => false

/-- Recognizes semaphore acquisitions (model.cc lines 373-375). -/
def Ev.isAcquireSem : Ev → Bool
  | Ev.acquireSem _ => true
  | _ => false

/-- Recognizes semaphore releases (model.cc line 467). -/
def Ev.isReleaseSem : Ev → Bool
  | Ev.releaseSem => true
  | _ => false

/-- The single-shot path's calls (model.cc lines 472-494, non-profiling):
check the inputs, set up the scoped runtime I/O, run one semaphore-gated
inference, finish. -/
def singleShotTrace : List Ev :=
  [Ev.checkInput 0, Ev.scopedIoSetup 0, Ev.inferSingle, Ev.finish 0]

/-- The device phase of one invocation after output allocation: lazy
`initialize` (model.cc lines 297, 478) followed by either the windowed
pipeline or the single-shot path, selected by `use_dynamic_batch_size`
(model.cc line 254). -/
def devicePhase (useDyn : Bool) (N W : Nat) : List Ev :=
  if useDyn then Ev.initModel :: pipelineTrace N W
  else Ev.initModel :: singleShotTrace

/-! ## The compute entry point (model.cc lines 158-498)

Profiling is modelled as disabled (`profile_.enabled_ = false`), and the
device phase is the error-free call trace; all pre-device validation is
modelled exactly, in source order. -/

/-- `NeuronModel::compute`: returns the call outcome together with the
trace of output allocations and device calls it performs.  Checks in
source order: input-tensor count (line 167), `get_io_tensor_sizes`
(line 171), the batch-analysis block (lines 173-247), output count
(line 248), then allocates outputs and runs the device phase. -/
def NeuronModel.compute (m : Meta) (rtShapes : List (List Nat))
    (numOutputs maxInfers : Nat) : Except Err Unit × List Ev :=
  if rtShapes.length ≠ m.inputNames.length then
    (Except.error (Err.invalidArgument "incorrect number of input tensors"), [])
  else
    match get_io_tensor_sizes m with
    | Except.error e => (Except.error e, [])
    | Except.ok _ =>
      match batchAnalysis m.inputNames.length numOutputs m.outputNames.length
          m.inputBatchAxis rtShapes m.inputShapes m.outputBatchAxis
          m.outputShapes with
      | Except.error e => (Except.error e, [])
      | Except.ok res =>
        if numOutputs ≠ m.outputNames.length then
          (Except.error (Err.invalidArgument "incorrect number of output tensors"), [])
        else
          let R := res.batchSize.toNat
          let H := res.kBatchSize.toNat
          let N := numBatches R H
          let W := windowSize maxInfers N
          (Except.ok (),
           (List.range numOutputs).map Ev.allocOutput ++ devicePhase res.useDyn N W)

/-! ## Shared helper lemmas -/

instance {α β : Type} [DecidableEq α] [DecidableEq β] : DecidableEq (Except α β) :=
  fun a b =>
  match a, b with
  | Except.ok x, Except.ok y =>
    if h : x = y then isTrue (by rw [h]) else isFalse (by simp [h])
  | Except.error x, Except.error y =>
    if h : x = y then isTrue (by rw [h]) else isFalse (by simp [h])
  | Except.ok _, Except.error _ => isFalse (by simp)
  | Except.error _, Except.ok _ => isFalse (by simp)

theorem numBatches_eq (R H : Nat) (hH : 1 ≤ H) :
    numBatches R H = (R - 1) / H + 1 := by
  unfold numBatches padBatchSize
  exact Nat.mul_div_cancel _ hH

theorem lt_div_succ_mul (a H : Nat) (hH : 1 ≤ H) : a < (a / H + 1) * H := by
  have h1 := Nat.div_add_mod a H
  have h2 := Nat.mod_lt a (y := H) hH
  rw [Nat.mul_comm] at h1
  rw [Nat.add_mul, Nat.one_mul]
  omega

theorem le_padBatchSize (R H : Nat) (hH : 1 ≤ H) : R ≤ padBatchSize R H := by
  have h1 := lt_div_succ_mul (R - 1) H hH
  unfold padBatchSize
  omega

theorem windowSize_bounds (M N : Nat) (hN : 1 ≤ N) :
    1 ≤ windowSize M N ∧ windowSize M N ≤ N := by
  unfold windowSize
  by_cases h : M > 1 <;> simp [h] <;> omega

/-! ## Claim theorems -/

/-- C3: for every runtime batch size `R ≥ 1` and hardware batch size
`H ≥ 1`, the computed number of sub-batches equals `ceil(R/H)` (as a
natural number, `(R + H - 1) / H`) and the padded total equals
`num_sub_batches * H`; in particular `R = 10, H = 4` yields 3 sub-batches,
a padded total of 12, and an allocated final output of exactly 10 rows. -/
theorem claim_C3 (R H : Nat) (hR : 1 ≤ R) (hH : 1 ≤ H) :
    numBatches R H = (R + H - 1) / H ∧
    padBatchSize R H = numBatches R H * H ∧
    numBatches 10 4 = 3 ∧ padBatchSize 10 4 = 12 ∧
    allocOutputDim0 true 10 4 = 10 := by
  refine ⟨?_, ?_, by decide, by decide, by decide⟩
  · rw [numBatches_eq R H hH, show R + H - 1 = (R - 1) + H by omega,
      Nat.add_div_right _ hH]
  · rw [numBatches_eq R H hH]; rfl

/-- Witness for C3 at `R = 10`, `H = 4`. -/
theorem claim_C3_witness :
    1 ≤ 10 ∧ 1 ≤ 4 ∧
    (numBatches 10 4 = (10 + 4 - 1) / 4 ∧
     padBatchSize 10 4 = numBatches 10 4 * 4 ∧
     numBatches 10 4 = 3 ∧ padBatchSize 10 4 = 12 ∧
     allocOutputDim0 true 10 4 = 10) :=
  ⟨by decide, by decide, claim_C3 10 4 (by decide) (by decide)⟩

/-- C2: for `R ≥ 1`, `H ≥ 1`, `R ≠ H`, every output slice
`[b*H, min(b*H + H, R))` stays within `[0, R)` (the padded region is never
written to the final output), and every output row `r < R` lies in exactly
one slice: the slices cover `[0, R)` with no overlap and no gap. -/
theorem claim_C2 (R H : Nat) (hR : 1 ≤ R) (hH : 1 ≤ H) (_hne : R ≠ H) :
    (∀ b, b < numBatches R H → sliceLimit R H b ≤ R) ∧
    (∀ r, r < R →
      ∃! b, b < numBatches R H ∧ sliceStart H b ≤ r ∧ r < sliceLimit R H b) := by
  constructor
  · intro b _
    exact min_le_right _ _
  · intro r hr
    refine ⟨r / H, ⟨?_, ?_, ?_⟩, ?_⟩
    · rw [numBatches_eq R H hH]
      have h1 : r / H ≤ (R - 1) / H := Nat.div_le_div_right (by omega)
      omega
    · exact Nat.div_mul_le_self r H
    · have h2 := lt_div_succ_mul r H hH
      rw [Nat.add_mul, Nat.one_mul] at h2
      exact lt_min h2 hr
    · rintro b2 ⟨_, hs, hl⟩
      have h3 : r < b2 * H + H := lt_of_lt_of_le hl (min_le_left _ _)
      have h4 : r < (b2 + 1) * H := by rw [Nat.add_mul, Nat.one_mul]; omega
      exact (Nat.div_eq_of_lt_le hs h4).symm

/-- Witness for C2 at `R = 10`, `H = 4`. -/
theorem claim_C2_witness :
    1 ≤ 10 ∧ 1 ≤ 4 ∧ (10 : Nat) ≠ 4 ∧
    ((∀ b, b < numBatches 10 4 → sliceLimit 10 4 b ≤ 10) ∧
     (∀ r, r < 10 →
       ∃! b, b < numBatches 10 4 ∧ sliceStart 4 b ≤ r ∧ r < sliceLimit 10 4 b)) :=
  ⟨by decide, by decide, by decide, claim_C2 10 4 (by decide) (by decide) (by decide)⟩

/-- C5 counterexample: with `R = 8`, `H = 4` the runtime batch size is an
exact multiple of the hardware batch size, yet the last sub-batch
(`b = 1`) is still a materialized (freshly allocated, copied) buffer, not
a non-copying slice view: the code's condition at model.cc line 274 is
`batch_idx == num_batches - 1` with no divisibility test. -/
theorem claim_C5_counterexample :
    (4 : Nat) ∣ 8 ∧ numBatches 8 4 = 2 ∧
    buildInput 8 4 1 = SubInput.padded 4 8 0 ∧
    (buildInput 8 4 1).isMaterialized = true := by decide

/-- C5 amended: a materialized buffer is produced for the last sub-batch
of every dynamically batched invocation, whether or not `R` is evenly
divisible by `H` (when it is divisible the zero-padded region is empty,
`padBatchSize R H = R`, so the copy is exact); every sub-batch before the
last is a non-copying slice view over `[b*H, b*H + H)`. -/
theorem claim_C5_amended (R H b : Nat) (hR : 1 ≤ R) (hH : 1 ≤ H)
    (hb : b < numBatches R H) :
    ((buildInput R H b).isMaterialized = true ↔ b = numBatches R H - 1) ∧
    (b < numBatches R H - 1 →
      buildInput R H b = SubInput.view (b * H) (b * H + H)) ∧
    (b = numBatches R H - 1 →
      buildInput R H b = SubInput.padded (b * H) R (padBatchSize R H - R)) ∧
    (H ∣ R → padBatchSize R H = R) := by
  refine ⟨?_, ?_, ?_, ?_⟩
  · unfold buildInput
    by_cases h : b = numBatches R H - 1 <;> simp [h, SubInput.isMaterialized]
  · intro h
    unfold buildInput
    rw [if_neg (by omega)]
  · intro h
    unfold buildInput
    rw [if_pos h]
  · rintro ⟨k, rfl⟩
    have hk : 1 ≤ k := by
      rcases Nat.eq_zero_or_pos k with h | h
      · subst h; omega
      · exact h
    have hq : (H * k - 1) / H = k - 1 := by
      apply Nat.div_eq_of_lt_le
      · have h5 : H * 1 ≤ H * k := Nat.mul_le_mul_left H hk
        rw [Nat.mul_one] at h5
        rw [Nat.sub_mul, Nat.one_mul, Nat.mul_comm]
        omega
      · have h6 : 1 ≤ k * H := by
          have := Nat.mul_le_mul hk hH
          omega
        rw [show k - 1 + 1 = k by omega, Nat.mul_comm]
        omega
    unfold padBatchSize
    rw [hq, show k - 1 + 1 = k by omega, Nat.mul_comm]

/-- Witness for the amended C5 at `R = 10`, `H = 4`, `b = 2` (the ragged
last sub-batch) -- its hypotheses are discharged concretely. -/
theorem claim_C5_amended_witness :
    1 ≤ 10 ∧ 1 ≤ 4 ∧ 2 < numBatches 10 4 ∧
    (((buildInput 10 4 2).isMaterialized = true ↔ 2 = numBatches 10 4 - 1) ∧
     (2 < numBatches 10 4 - 1 →
       buildInput 10 4 2 = SubInput.view (2 * 4) (2 * 4 + 4)) ∧
     (2 = numBatches 10 4 - 1 →
       buildInput 10 4 2 = SubInput.padded (2 * 4) 10 (padBatchSize 10 4 - 10)) ∧
     ((4 : Nat) ∣ 10 → padBatchSize 10 4 = 10)) :=
  ⟨by decide, by decide, by decide,
   claim_C5_amended 10 4 2 (by decide) (by decide) (by decide)⟩

/-! ### Counting helpers for the pipeline trace -/

theorem sum_map_ite_ge (a : Nat) (l : List Nat) :
    (l.map fun b => if a ≤ b then (1 : Nat) else 0).sum
      = l.countP fun b => decide (a ≤ b) := by
  induction l with
  | nil => rfl
  | cons x xs ih =>
    by_cases h : a ≤ x <;>
      simp [List.countP_cons, h, ih, Nat.add_comm]

theorem countP_ge_range (a N : Nat) (h : a ≤ N) :
    (List.range N).countP (fun b => decide (a ≤ b)) = N - a := by
  induction N with
  | zero => simp
  | succ n ih =>
    rw [List.range_succ, List.countP_append]
    by_cases h2 : a ≤ n
    · rw [ih h2]
      simp [h2]
      omega
    · have h3 : a = n + 1 := by omega
      have h4 : (List.range n).countP (fun b => decide (a ≤ b)) = 0 := by
        rw [List.countP_eq_zero]
        intro b hb
        have := List.mem_range.mp hb
        simp
        omega
      rw [h4]
      simp [h2]
      omega

theorem range_split (N W : Nat) (h : W ≤ N) :
    List.range W ++ List.range' W (N - W) = List.range N := by
  have h0 := List.range'_append_1 0 W (N - W)
  rw [Nat.zero_add] at h0
  rw [List.range_eq_range', List.range_eq_range', h0]
  congr 1
  omega

theorem sum_map_one {α : Type} (l : List α) :
    (l.map fun _ => (1 : Nat)).sum = l.length := by
  induction l with
  | nil => rfl
  | cons x xs ih => simp [ih]; omega

theorem sum_map_zero {α : Type} (l : List α) :
    (l.map fun _ => (0 : Nat)).sum = 0 := by
  induction l with
  | nil => rfl
  | cons x xs ih => simp [ih]

/-- C4: for every error-free pipeline run with
`num_sub_batches = N ≥ window_size = W ≥ 1`, the number of sub-batches
routed through the extra "posted" confirmation path (`post_infer_post`)
is exactly `W`, so the `need_wait_infer_post.size() == window_size` check
at model.cc lines 449-450 holds and its internal-error branch is
unreachable on an error-free run. -/
theorem claim_C4 (N W : Nat) (h1 : 1 ≤ W) (h2 : W ≤ N) :
    (pipelineTrace N W).countP Ev.isPostInferPost = W := by
  have hfill : ∀ b, (fillStep N W b).countP Ev.isPostInferPost
      = if N - W ≤ b then 1 else 0 := by
    intro b
    by_cases h : N - W ≤ b <;>
      simp [fillStep, h, Ev.isPostInferPost, List.countP_cons]
  have hsteady : ∀ b, (steadyStep N W b).countP Ev.isPostInferPost
      = if N - W ≤ b then 1 else 0 := by
    intro b
    by_cases h : N - W ≤ b <;>
      simp [steadyStep, h, Ev.isPostInferPost, List.countP_cons]
  have hkey : ((List.range W).map fun b => if N - W ≤ b then (1 : Nat) else 0).sum
      + ((List.range' W (N - W)).map fun b => if N - W ≤ b then (1 : Nat) else 0).sum
      = W := by
    rw [sum_map_ite_ge, sum_map_ite_ge, ← List.countP_append, range_split N W h2,
      countP_ge_range _ _ (by omega)]
    omega
  rw [pipelineTrace, fillPhase, steadyPhase, postWaitPhase, drainPhase]
  rw [List.countP_cons_of_neg _ _ (by simp [Ev.isPostInferPost]),
    List.countP_cons_of_neg _ _ (by simp [Ev.isPostInferPost])]
  rw [List.countP_append, List.countP_append, List.countP_append]
  rw [List.countP_flatten, List.countP_flatten, List.countP_flatten,
    List.map_map, List.map_map, List.map_map]
  have e1 : (List.range W).map (List.countP Ev.isPostInferPost ∘ fillStep N W)
      = (List.range W).map fun b => if N - W ≤ b then (1 : Nat) else 0 :=
    List.map_congr_left fun b _ => hfill b
  have e2 : (List.range' W (N - W)).map
        (List.countP Ev.isPostInferPost ∘ steadyStep N W)
      = (List.range' W (N - W)).map fun b => if N - W ≤ b then (1 : Nat) else 0 :=
    List.map_congr_left fun b _ => hsteady b
  have e3 : (List.range' (N - W) W).map
        (List.countP Ev.isPostInferPost ∘ drainStep)
      = (List.range' (N - W) W).map fun _ => (0 : Nat) :=
    List.map_congr_left fun b _ => by simp [drainStep, Ev.isPostInferPost]
  rw [e1, e2, e3, List.countP_map]
  have e4 : (List.range' (N - W) W).countP (Ev.isPostInferPost ∘ Ev.waitInferPost) = 0 := by
    simp [Function.comp_def, Ev.isPostInferPost]
  have e5 := sum_map_zero (List.range' (N - W) W)
  rw [e4, e5]
  omega

/-- Witness for C4 at `N = 3`, `W = 2`. -/
theorem claim_C4_witness :
    1 ≤ 2 ∧ 2 ≤ 3 ∧ (pipelineTrace 3 2).countP Ev.isPostInferPost = 2 :=
  ⟨by decide, by decide, claim_C4 3 2 (by decide) (by decide)⟩

/-- C6 counterexample: with `num_batches = 2` and `max_num_infers = 1`
(so `window_size = 1`), the pipeline submits 2 sub-batch requests but
performs only 1 semaphore acquisition: `acquire_sem` is called only in
the fill loop (model.cc lines 373-375), never in the steady loop, so
acquires are NOT balanced 1:1 per sub-batch request and the second
request is not preceded by any acquire of its own. -/
theorem claim_C6_counterexample :
    windowSize 1 2 = 1 ∧
    (pipelineTrace 2 1).countP Ev.isPost = 2 ∧
    (pipelineTrace 2 1).countP Ev.isAcquireSem = 1 ∧
    (pipelineTrace 2 1).countP Ev.isAcquireSem
      ≠ (pipelineTrace 2 1).countP Ev.isPost := by decide

/-- C6 amended: across one error-free invocation, Admission Semaphore
acquires and releases are balanced 1:1 per pipeline slot, not per
sub-batch request: exactly `window_size` acquires (one per fill-loop
iteration) and exactly `window_size` releases (one per drain-loop
iteration); steady-phase requests reuse the outstanding tokens without a
fresh acquire. -/
theorem claim_C6_amended (N W : Nat) (_h1 : 1 ≤ W) (_h2 : W ≤ N) :
    (pipelineTrace N W).countP Ev.isAcquireSem = W ∧
    (pipelineTrace N W).countP Ev.isReleaseSem = W := by
  constructor
  · rw [pipelineTrace, fillPhase, steadyPhase, postWaitPhase, drainPhase]
    rw [List.countP_cons_of_neg _ _ (by simp [Ev.isAcquireSem]),
      List.countP_cons_of_neg _ _ (by simp [Ev.isAcquireSem])]
    rw [List.countP_append, List.countP_append, List.countP_append]
    rw [List.countP_flatten, List.countP_flatten, List.countP_flatten,
      List.map_map, List.map_map, List.map_map]
    have e1 : (List.range W).map (List.countP Ev.isAcquireSem ∘ fillStep N W)
        = (List.range W).map fun _ => (1 : Nat) :=
      List.map_congr_left fun b _ => by
        by_cases h : N - W ≤ b <;>
          simp [fillStep, h, Ev.isAcquireSem, List.countP_cons]
    have e2 : (List.range' W (N - W)).map
          (List.countP Ev.isAcquireSem ∘ steadyStep N W)
        = (List.range' W (N - W)).map fun _ => (0 : Nat) :=
      List.map_congr_left fun b _ => by
        by_cases h : N - W ≤ b <;>
          simp [steadyStep, h, Ev.isAcquireSem, List.countP_cons]
    have e3 : (List.range' (N - W) W).map
          (List.countP Ev.isAcquireSem ∘ drainStep)
        = (List.range' (N - W) W).map fun _ => (0 : Nat) :=
      List.map_congr_left fun b _ => by simp [drainStep, Ev.isAcquireSem]
    rw [e1, e2, e3, List.countP_map]
    have s1 := sum_map_one (List.range W)
    have z1 := sum_map_zero (List.range' W (N - W))
    have z2 := sum_map_zero (List.range' (N - W) W)
    have e4 : (List.range' (N - W) W).countP (Ev.isAcquireSem ∘ Ev.waitInferPost) = 0 := by
      simp [Function.comp_def, Ev.isAcquireSem]
    rw [s1, z1, z2, e4, List.length_range]
    omega
  · rw [pipelineTrace, fillPhase, steadyPhase, postWaitPhase, drainPhase]
    rw [List.countP_cons_of_neg _ _ (by simp [Ev.isReleaseSem]),
      List.countP_cons_of_neg _ _ (by simp [Ev.isReleaseSem])]
    rw [List.countP_append, List.countP_append, List.countP_append]
    rw [List.countP_flatten, List.countP_flatten, List.countP_flatten,
      List.map_map, List.map_map, List.map_map]
    have e1 : (List.range W).map (List.countP Ev.isReleaseSem ∘ fillStep N W)
        = (List.range W).map fun _ => (0 : Nat) :=
      List.map_congr_left fun b _ => by
        by_cases h : N - W ≤ b <;>
          simp [fillStep, h, Ev.isReleaseSem, List.countP_cons]
    have e2 : (List.range' W (N - W)).map
          (List.countP Ev.isReleaseSem ∘ steadyStep N W)
        = (List.range' W (N - W)).map fun _ => (0 : Nat) :=
      List.map_congr_left fun b _ => by
        by_cases h : N - W ≤ b <;>
          simp [steadyStep, h, Ev.isReleaseSem, List.countP_cons]
    have e3 : (List.range' (N - W) W).map
          (List.countP Ev.isReleaseSem ∘ drainStep)
        = (List.range' (N - W) W).map fun _ => (1 : Nat) :=
      List.map_congr_left fun b _ => by simp [drainStep, Ev.isReleaseSem, List.countP_cons]
    rw [e1, e2, e3, List.countP_map]
    have z1 := sum_map_zero (List.range W)
    have z2 := sum_map_zero (List.range' W (N - W))
    have s1 := sum_map_one (List.range' (N - W) W)
    have e4 : (List.range' (N - W) W).countP (Ev.isReleaseSem ∘ Ev.waitInferPost) = 0 := by
      simp [Function.comp_def, Ev.isReleaseSem]
    rw [z1, z2, s1, e4, List.length_range']
    omega

/-- Witness for the amended C6 at `N = 3`, `W = 2`. -/
theorem claim_C6_amended_witness :
    1 ≤ 2 ∧ 2 ≤ 3 ∧
    ((pipelineTrace 3 2).countP Ev.isAcquireSem = 2 ∧
     (pipelineTrace 3 2).countP Ev.isReleaseSem = 2) :=
  ⟨by decide, by decide, claim_C6_amended 3 2 (by decide) (by decide)⟩

/-- C1 counterexample: with `num_batches = 2`, `max_num_infers = 1` (so
`window_size = 1`), sub-batch `b = 1` is in the steady phase; its post
event and the wait for request `b - window_size = 0` both occur in the
device-call trace, but there is NO occurrence of the post of request 1
before the wait for request 0: the steady loop (model.cc lines 396-446)
issues `wait_infer` on the oldest request BEFORE `post_infer_post` /
`post_infer` of the new one -- only the setup precedes the wait. -/
theorem claim_C1_counterexample :
    windowSize 1 2 = 1 ∧
    postEvent 2 1 1 ∈ pipelineTrace 2 1 ∧
    Ev.waitInfer 0 ∈ pipelineTrace 2 1 ∧
    ¬ List.Sublist [postEvent 2 1 1, Ev.waitInfer 0] (pipelineTrace 2 1) := by
  decide

/-- C1 amended: in the steady phase, for every sub-batch
`b ∈ [window_size, num_sub_batches)`, the device-call sequence contains,
in this order, the setup of request `b`, then the wait on the oldest
outstanding request `b - window_size`, then the post of request `b`: the
new request is built and set up before the wait, but its submission
(post) to the device is issued after the wait on the old one completes. -/
theorem claim_C1_amended (N W b : Nat) (_h1 : 1 ≤ W) (h2 : W ≤ b) (h3 : b < N) :
    List.Sublist [setupEvent N W b, Ev.waitInfer (b - W), postEvent N W b]
      (pipelineTrace N W) := by
  have hloc : List.Sublist [setupEvent N W b, Ev.waitInfer (b - W), postEvent N W b]
      (steadyStep N W b) := by
    have hinf : [setupEvent N W b, Ev.waitInfer (b - W), postEvent N W b] <:+:
        steadyStep N W b := by
      refine ⟨[Ev.checkInput b, Ev.scopedIoSetup b], [Ev.finish (b - W)], ?_⟩
      by_cases h : N - W ≤ b <;> simp [steadyStep, setupEvent, postEvent, h]
    exact hinf.sublist
  have hmem : steadyStep N W b ∈ (List.range' W (N - W)).map (steadyStep N W) := by
    refine List.mem_map_of_mem _ ?_
    rw [List.mem_range']
    exact ⟨b - W, by omega, by omega⟩
  have hph : List.Sublist (steadyStep N W b) (steadyPhase N W) :=
    List.sublist_flatten_of_mem hmem
  have htail : List.Sublist (steadyPhase N W)
      (fillPhase N W ++ (steadyPhase N W ++ (postWaitPhase N W ++ drainPhase N W))) :=
    List.Sublist.trans (List.sublist_append_left _ _) (List.sublist_append_right _ _)
  have hall : List.Sublist (steadyPhase N W) (pipelineTrace N W) := by
    rw [pipelineTrace]
    exact List.Sublist.trans htail ((List.sublist_cons_self _ _).trans
      (List.sublist_cons_self _ _))
  exact hloc.trans (hph.trans hall)

/-- Witness for the amended C1 at `N = 2`, `W = 1`, `b = 1`. -/
theorem claim_C1_amended_witness :
    1 ≤ 1 ∧ 1 ≤ 1 ∧ 1 < 2 ∧
    List.Sublist [setupEvent 2 1 1, Ev.waitInfer 0, postEvent 2 1 1]
      (pipelineTrace 2 1) :=
  ⟨by decide, by decide, by decide,
   claim_C1_amended 2 1 1 (by decide) (by decide) (by decide)⟩


theorem procOneInput_preserve {st st1 : BatchSt} {a : Int} {s k : List Nat} {f : Bool}
    (h : procOneInput st a s k = Except.ok (st1, f))
    (hset : st.batchSize ≠ UNINIT_BATCH_SIZE) :
    st1.batchSize = st.batchSize ∧ st1.kBatchSize = st.kBatchSize := by
  unfold procOneInput at h
  by_cases ha : a = 0
  · rw [if_pos ha] at h
    by_cases hn : s.length = 0
    · rw [if_pos hn] at h
      exact Except.noConfusion h
    · rw [if_neg hn, if_neg hset] at h
      by_cases hb : st.batchSize = (s.headD 0 : Int)
      · rw [if_pos hb] at h
        by_cases hs : s.tail = k.tail
        · rw [if_pos hs] at h
          simp only [Except.ok.injEq, Prod.mk.injEq] at h
          obtain ⟨h1, h2⟩ := h
          subst h1
          exact ⟨rfl, rfl⟩
        · rw [if_neg hs] at h
          exact Except.noConfusion h
      · rw [if_neg hb] at h
        exact Except.noConfusion h
  · rw [if_neg ha] at h
    by_cases hk : s = k
    · rw [if_pos hk] at h
      simp only [Except.ok.injEq, Prod.mk.injEq] at h
      obtain ⟨h1, h2⟩ := h
      subst h1
      exact ⟨rfl, rfl⟩
    · rw [if_neg hk] at h
      exact Except.noConfusion h

theorem procOneInput_flag_true {st st1 : BatchSt} {a : Int} {s k : List Nat} {f : Bool}
    (h : procOneInput st a s k = Except.ok (st1, f)) (hf : f = true) :
    st1.batchSize ≠ st1.kBatchSize ∧ st1.batchSize ≠ UNINIT_BATCH_SIZE := by
  subst hf
  unfold procOneInput at h
  by_cases ha : a = 0
  · rw [if_pos ha] at h
    by_cases hn : s.length = 0
    · rw [if_pos hn] at h
      exact Except.noConfusion h
    · rw [if_neg hn] at h
      by_cases hu : st.batchSize = UNINIT_BATCH_SIZE
      · rw [if_pos hu] at h
        by_cases hd : ((s.headD 0 : Int) > 0)
        · rw [if_pos hd] at h
          by_cases hs : s.tail = k.tail
          · rw [if_pos hs] at h
            simp only [Except.ok.injEq, Prod.mk.injEq] at h
            obtain ⟨h1, h2⟩ := h
            subst h1
            have h3 : ((s.headD 0 : Int)) ≠ ((k.headD 0 : Int)) := of_decide_eq_true h2
            refine ⟨h3, ?_⟩
            simp only [UNINIT_BATCH_SIZE]
            omega
          · rw [if_neg hs] at h
            exact Except.noConfusion h
        · rw [if_neg hd] at h
          exact Except.noConfusion h
      · rw [if_neg hu] at h
        by_cases hb : st.batchSize = (s.headD 0 : Int)
        · rw [if_pos hb] at h
          by_cases hs : s.tail = k.tail
          · rw [if_pos hs] at h
            simp only [Except.ok.injEq, Prod.mk.injEq] at h
            obtain ⟨h1, h2⟩ := h
            subst h1
            exact ⟨of_decide_eq_true h2, hu⟩
          · rw [if_neg hs] at h
            exact Except.noConfusion h
        · rw [if_neg hb] at h
          exact Except.noConfusion h
  · rw [if_neg ha] at h
    by_cases hk : s = k
    · rw [if_pos hk] at h
      simp only [Except.ok.injEq, Prod.mk.injEq] at h
      obtain ⟨h1, h2⟩ := h
      exact absurd h2 (by simp)
    · rw [if_neg hk] at h
      exact Except.noConfusion h

theorem procOneInput_useDyn {st st1 : BatchSt} {a : Int} {s k : List Nat} {f : Bool}
    (h : procOneInput st a s k = Except.ok (st1, f)) :
    st1.useDyn = f ∨ st1.useDyn = st.useDyn := by
  unfold procOneInput at h
  by_cases ha : a = 0
  · rw [if_pos ha] at h
    by_cases hn : s.length = 0
    · rw [if_pos hn] at h
      exact Except.noConfusion h
    · rw [if_neg hn] at h
      by_cases hu : st.batchSize = UNINIT_BATCH_SIZE
      · rw [if_pos hu] at h
        by_cases hd : ((s.headD 0 : Int) > 0)
        · rw [if_pos hd] at h
          by_cases hs : s.tail = k.tail
          · rw [if_pos hs] at h
            simp only [Except.ok.injEq, Prod.mk.injEq] at h
            obtain ⟨h1, h2⟩ := h
            subst h1
            subst h2
            exact Or.inl rfl
          · rw [if_neg hs] at h
            exact Except.noConfusion h
        · rw [if_neg hd] at h
          exact Except.noConfusion h
      · rw [if_neg hu] at h
        by_cases hb : st.batchSize = (s.headD 0 : Int)
        · rw [if_pos hb] at h
          by_cases hs : s.tail = k.tail
          · rw [if_pos hs] at h
            simp only [Except.ok.injEq, Prod.mk.injEq] at h
            obtain ⟨h1, h2⟩ := h
            subst h1
            subst h2
            exact Or.inl rfl
          · rw [if_neg hs] at h
            exact Except.noConfusion h
        · rw [if_neg hb] at h
          exact Except.noConfusion h
  · rw [if_neg ha] at h
    by_cases hk : s = k
    · rw [if_pos hk] at h
      simp only [Except.ok.injEq, Prod.mk.injEq] at h
      obtain ⟨h1, h2⟩ := h
      subst h1
      exact Or.inr rfl
    · rw [if_neg hk] at h
      exact Except.noConfusion h

theorem procInputs_preserve {ts : List (Int × List Nat × List Nat)} :
    ∀ {st st2 : BatchSt} {fs : List Bool},
    procInputs st ts = Except.ok (st2, fs) →
    st.batchSize ≠ UNINIT_BATCH_SIZE →
    st2.batchSize = st.batchSize ∧ st2.kBatchSize = st.kBatchSize := by
  induction ts with
  | nil =>
    intro st st2 fs h hset
    simp only [procInputs, Except.ok.injEq, Prod.mk.injEq] at h
    obtain ⟨h1, h2⟩ := h
    subst h1
    exact ⟨rfl, rfl⟩
  | cons t ts ih =>
    obtain ⟨a, s, k⟩ := t
    intro st st2 fs h hset
    simp only [procInputs] at h
    cases hp : procOneInput st a s k with
    | error e =>
      simp only [hp] at h
      exact Except.noConfusion h
    | ok p =>
      obtain ⟨st1, f⟩ := p
      simp only [hp] at h
      cases hq : procInputs st1 ts with
      | error e =>
        simp only [hq] at h
        exact Except.noConfusion h
      | ok q =>
        obtain ⟨st2a, fsa⟩ := q
        simp only [hq, Except.ok.injEq, Prod.mk.injEq] at h
        obtain ⟨h1, h2⟩ := h
        subst h1
        obtain ⟨hA, hB⟩ := procOneInput_preserve hp hset
        have hset1 : st1.batchSize ≠ UNINIT_BATCH_SIZE := by
          rw [hA]; exact hset
        obtain ⟨hC, hD⟩ := ih hq hset1
        exact ⟨hC.trans hA, hD.trans hB⟩

theorem procInputs_flags {ts : List (Int × List Nat × List Nat)} :
    ∀ {st st2 : BatchSt} {fs : List Bool},
    procInputs st ts = Except.ok (st2, fs) →
    st2.batchSize = st2.kBatchSize →
    ∀ g ∈ fs, g = false := by
  induction ts with
  | nil =>
    intro st st2 fs h _ g hg
    simp only [procInputs, Except.ok.injEq, Prod.mk.injEq] at h
    obtain ⟨h1, h2⟩ := h
    subst h2
    cases hg
  | cons t ts ih =>
    obtain ⟨a, s, k⟩ := t
    intro st st2 fs h heq g hg
    simp only [procInputs] at h
    cases hp : procOneInput st a s k with
    | error e =>
      simp only [hp] at h
      exact Except.noConfusion h
    | ok p =>
      obtain ⟨st1, f⟩ := p
      simp only [hp] at h
      cases hq : procInputs st1 ts with
      | error e =>
        simp only [hq] at h
        exact Except.noConfusion h
      | ok q =>
        obtain ⟨st2a, fsa⟩ := q
        simp only [hq, Except.ok.injEq, Prod.mk.injEq] at h
        obtain ⟨h1, h2⟩ := h
        subst h1
        subst h2
        cases hg with
        | head =>
          cases hf : g with
          | false => rfl
          | true =>
            exfalso
            obtain ⟨hne, hnu⟩ := procOneInput_flag_true hp hf
            obtain ⟨hC, hD⟩ := procInputs_preserve hq hnu
            rw [hC, hD] at heq
            exact hne heq
        | tail _ hmem => exact ih hq heq g hmem

theorem procInputs_useDyn {ts : List (Int × List Nat × List Nat)} :
    ∀ {st st2 : BatchSt} {fs : List Bool},
    procInputs st ts = Except.ok (st2, fs) →
    st2.useDyn = st.useDyn ∨ ∃ g ∈ fs, st2.useDyn = g := by
  induction ts with
  | nil =>
    intro st st2 fs h
    simp only [procInputs, Except.ok.injEq, Prod.mk.injEq] at h
    obtain ⟨h1, h2⟩ := h
    subst h1
    exact Or.inl rfl
  | cons t ts ih =>
    obtain ⟨a, s, k⟩ := t
    intro st st2 fs h
    simp only [procInputs] at h
    cases hp : procOneInput st a s k with
    | error e =>
      simp only [hp] at h
      exact Except.noConfusion h
    | ok p =>
      obtain ⟨st1, f⟩ := p
      simp only [hp] at h
      cases hq : procInputs st1 ts with
      | error e =>
        simp only [hq] at h
        exact Except.noConfusion h
      | ok q =>
        obtain ⟨st2a, fsa⟩ := q
        simp only [hq, Except.ok.injEq, Prod.mk.injEq] at h
        obtain ⟨h1, h2⟩ := h
        subst h1
        subst h2
        cases ih hq with
        | inl h3 =>
          cases procOneInput_useDyn hp with
          | inl h4 => exact Or.inr ⟨f, List.mem_cons_self _ _, h3.trans h4⟩
          | inr h4 => exact Or.inl (h3.trans h4)
        | inr h3 =>
          obtain ⟨g, hg, h4⟩ := h3
          exact Or.inr ⟨g, List.mem_cons_of_mem _ hg, h4⟩

theorem procOneOutput_false {st : BatchSt} {a : Int} {k : List Nat} {f : Bool}
    (h : procOneOutput st a k = Except.ok f)
    (heq : st.batchSize = st.kBatchSize) : f = false := by
  unfold procOneOutput at h
  by_cases ha : a = 0
  · rw [if_pos ha] at h
    by_cases hn : k.length = 0
    · rw [if_pos hn] at h
      exact Except.noConfusion h
    · rw [if_neg hn] at h
      by_cases hc : st.kBatchSize = (k.headD 0 : Int)
      · rw [if_pos hc] at h
        simp only [Except.ok.injEq] at h
        rw [← h]
        simp [heq, hc]
      · rw [if_neg hc] at h
        exact Except.noConfusion h
  · rw [if_neg ha] at h
    simp only [Except.ok.injEq] at h
    exact h.symm

theorem procOutputs_flags {ts : List (Int × List Nat)} :
    ∀ {st : BatchSt} {fs : List Bool},
    procOutputs st ts = Except.ok fs →
    st.batchSize = st.kBatchSize →
    ∀ g ∈ fs, g = false := by
  induction ts with
  | nil =>
    intro st fs h _ g hg
    simp only [procOutputs, Except.ok.injEq] at h
    subst h
    cases hg
  | cons t ts ih =>
    obtain ⟨a, k⟩ := t
    intro st fs h heq g hg
    simp only [procOutputs] at h
    cases hp : procOneOutput st a k with
    | error e =>
      simp only [hp] at h
      exact Except.noConfusion h
    | ok f =>
      simp only [hp] at h
      cases hq : procOutputs st ts with
      | error e =>
        simp only [hq] at h
        exact Except.noConfusion h
      | ok fsa =>
        simp only [hq, Except.ok.injEq] at h
        subst h
        cases hg with
        | head => exact procOneOutput_false hp heq
        | tail _ hmem => exact ih hq heq g hmem


/-- C7: if the runtime batch size equals the hardware batch size
(`res.batchSize = res.kBatchSize`, including the degenerate case where
both are still uninitialized), dynamic batching is bypassed: every
per-tensor carries-batch flag is false, `use_dynamic_batch_size` is
false, and the device phase is the single-shot path with no slicing or
padding. -/
theorem claim_C7 (nIn nOut nOutNames : Nat) (inAxes : List Int)
    (rtShapes kShapes : List (List Nat)) (outAxes : List Int)
    (outKshapes : List (List Nat)) (res : ARes)
    (h : batchAnalysis nIn nOut nOutNames inAxes rtShapes kShapes outAxes outKshapes
        = Except.ok res)
    (heq : res.batchSize = res.kBatchSize) :
    (∀ g ∈ res.inFlags, g = false) ∧ (∀ g ∈ res.outFlags, g = false) ∧
    res.useDyn = false ∧
    (∀ N W, devicePhase res.useDyn N W = Ev.initModel :: singleShotTrace) := by
  unfold batchAnalysis at h
  split at h
  · cases hp : procInputs initBatchSt (inAxes.zip (rtShapes.zip kShapes)) with
    | error e =>
      simp only [hp] at h
      exact Except.noConfusion h
    | ok p =>
      obtain ⟨st2, inF⟩ := p
      simp only [hp] at h
      cases hq : procOutputs st2 (outAxes.zip outKshapes) with
      | error e =>
        simp only [hq] at h
        exact Except.noConfusion h
      | ok outF =>
        simp only [hq, Except.ok.injEq] at h
        subst h
        have heq2 : st2.batchSize = st2.kBatchSize := heq
        have hin := procInputs_flags hp heq2
        have hout := procOutputs_flags hq heq2
        have hdyn : st2.useDyn = false := by
          cases procInputs_useDyn hp with
          | inl h3 => exact h3
          | inr h3 =>
            obtain ⟨g, hgm, h4⟩ := h3
            rw [h4]
            exact hin g hgm
        refine ⟨hin, hout, hdyn, ?_⟩
        intro N W
        show devicePhase st2.useDyn N W = _
        rw [hdyn]
        rfl
  · simp only [Except.ok.injEq] at h
    subst h
    refine ⟨?_, ?_, rfl, ?_⟩
    · intro g hgm
      exact List.eq_of_mem_replicate hgm
    · intro g hgm
      exact List.eq_of_mem_replicate hgm
    · intro N W
      rfl

/-- Witness for C7: a concrete invocation with `R = H = 4`. -/
theorem claim_C7_witness :
    (batchAnalysis 1 1 1 [0] [[4, 3]] [[4, 3]] [0] [[4, 2]]
        = Except.ok (⟨[false], [false], false, 4, 4⟩ : ARes)) ∧
    (ARes.batchSize ⟨[false], [false], false, 4, 4⟩
        = ARes.kBatchSize ⟨[false], [false], false, 4, 4⟩) ∧
    ((∀ g ∈ ARes.inFlags ⟨[false], [false], false, 4, 4⟩, g = false) ∧
     (∀ g ∈ ARes.outFlags ⟨[false], [false], false, 4, 4⟩, g = false) ∧
     ARes.useDyn ⟨[false], [false], false, 4, 4⟩ = false ∧
     (∀ N W, devicePhase (ARes.useDyn ⟨[false], [false], false, 4, 4⟩) N W
        = Ev.initModel :: singleShotTrace)) :=
  ⟨by decide, by decide,
   claim_C7 1 1 1 [0] [[4, 3]] [[4, 3]] [0] [[4, 2]]
     ⟨[false], [false], false, 4, 4⟩ (by decide) (by decide)⟩

/-- C8: at a call site wrapped by `RIE_IGNORE_ABORTED` (all of which occur
after output buffers have been allocated: model.cc line 27 note, lines
297, 478), a device status with code ABORTED is swallowed and treated as
success of that step, while every other non-OK status propagates as the
error and short-circuits the remaining pipeline; an OK status is passed
through as success. -/
theorem claim_C8 (s : Status) :
    rieIgnoreAborted s =
      if s.code = Code.aborted ∨ s.code = Code.ok then Except.ok ()
      else Except.error s := by
  unfold rieIgnoreAborted
  by_cases h1 : s.code = Code.aborted
  · simp [h1]
  · by_cases h2 : s.code = Code.ok <;> simp [h1, h2]

/-- C9: if the declared name/dtype/shape lists in the static metadata have
mismatched lengths on the input or output side, the invocation fails with
a `FailedPrecondition` error and the emitted device-call trace is empty:
the length check (model.cc line 171) precedes every device call in the
compute path. -/
theorem claim_C9 (m : Meta) (rtShapes : List (List Nat)) (numOutputs maxInfers : Nat)
    (hrt : rtShapes.length = m.inputNames.length)
    (hbad : m.inputNames.length ≠ m.inputDtypeSizes.length
      ∨ m.inputNames.length ≠ m.inputShapes.length
      ∨ m.outputNames.length ≠ m.outputDtypeSizes.length
      ∨ m.outputNames.length ≠ m.outputShapes.length) :
    ∃ msg, NeuronModel.compute m rtShapes numOutputs maxInfers
      = (Except.error (Err.failedPrecondition msg), []) := by
  unfold NeuronModel.compute
  rw [if_neg (by omega)]
  by_cases h1 : m.inputNames.length ≠ m.inputDtypeSizes.length
      ∨ m.inputNames.length ≠ m.inputShapes.length
  · have hio : get_io_tensor_sizes m
        = Except.error (Err.failedPrecondition "incorrect number of inputs") := by
      unfold get_io_tensor_sizes
      rw [if_pos h1]
    refine ⟨"incorrect number of inputs", ?_⟩
    simp only [hio]
  · have h2 : m.outputNames.length ≠ m.outputDtypeSizes.length
        ∨ m.outputNames.length ≠ m.outputShapes.length := by
      rcases hbad with h | h | h | h
      · exact absurd (Or.inl h) h1
      · exact absurd (Or.inr h) h1
      · exact Or.inl h
      · exact Or.inr h
    have hio : get_io_tensor_sizes m
        = Except.error (Err.failedPrecondition "incorrect number of outputs") := by
      unfold get_io_tensor_sizes
      rw [if_neg h1, if_pos h2]
    refine ⟨"incorrect number of outputs", ?_⟩
    simp only [hio]

/-- Witness for C9: metadata with 1 input name but 0 input dtypes. -/
theorem claim_C9_witness :
    ([[2]] : List (List Nat)).length
      = (Meta.inputNames ⟨["x"], [], [[2]], ["y"], [4], [[2]], [0], [0]⟩).length ∧
    (∃ msg, NeuronModel.compute ⟨["x"], [], [[2]], ["y"], [4], [[2]], [0], [0]⟩ [[2]] 1 5
      = (Except.error (Err.failedPrecondition msg), [])) :=
  ⟨by decide,
   claim_C9 ⟨["x"], [], [[2]], ["y"], [4], [[2]], [0], [0]⟩ [[2]] 1 5 (by decide)
     (Or.inl (by decide))⟩

/-- C10: if some input declares a batch axis other than `-1` but the
input batch-axis list length differs from the input-names list length, or
the output batch-axis list length differs from the output-names list
length, the batch-analysis block is silently skipped (model.cc lines
189-190): no error is raised, dynamic batching is disabled, and the
invocation takes the single-shot path. -/
theorem claim_C10 (m : Meta) (rtShapes : List (List Nat)) (numOutputs maxInfers : Nat)
    (hrt : rtShapes.length = m.inputNames.length)
    (hin1 : m.inputNames.length = m.inputDtypeSizes.length)
    (hin2 : m.inputNames.length = m.inputShapes.length)
    (hout1 : m.outputNames.length = m.outputDtypeSizes.length)
    (hout2 : m.outputNames.length = m.outputShapes.length)
    (hnum : numOutputs = m.outputNames.length)
    (_henable : (m.inputBatchAxis.any fun a => a ≠ -1) = true)
    (hbad : m.inputNames.length ≠ m.inputBatchAxis.length
      ∨ m.outputNames.length ≠ m.outputBatchAxis.length) :
    NeuronModel.compute m rtShapes numOutputs maxInfers
      = (Except.ok (),
         (List.range numOutputs).map Ev.allocOutput
           ++ (Ev.initModel :: singleShotTrace)) := by
  unfold NeuronModel.compute
  rw [if_neg (by omega)]
  have hio : get_io_tensor_sizes m = Except.ok
      ((m.inputDtypeSizes.zip m.inputShapes).map fun p => get_tensor_size p.1 p.2,
       (m.outputDtypeSizes.zip m.outputShapes).map fun p => get_tensor_size p.1 p.2) := by
    unfold get_io_tensor_sizes
    rw [if_neg (by omega), if_neg (by omega)]
  simp only [hio]
  have hba : batchAnalysis m.inputNames.length numOutputs m.outputNames.length
      m.inputBatchAxis rtShapes m.inputShapes m.outputBatchAxis m.outputShapes
      = Except.ok ⟨List.replicate m.inputNames.length false,
                   List.replicate numOutputs false, false,
                   UNINIT_BATCH_SIZE, UNINIT_BATCH_SIZE⟩ := by
    unfold batchAnalysis
    rw [if_neg ?hc]
    case hc =>
      rintro ⟨he, hA, hB⟩
      rcases hbad with hb | hb
      · exact hb hA
      · exact hb hB
  simp only [hba]
  rw [if_neg (by omega)]
  rfl

/-- Witness for C10: one input name but a two-element input batch-axis
list; the run succeeds on the single-shot path. -/
theorem claim_C10_witness :
    ([[4, 3]] : List (List Nat)).length
      = (Meta.inputNames ⟨["x"], [4], [[4, 3]], ["y"], [4], [[4, 2]], [0, 0], [0]⟩).length ∧
    NeuronModel.compute ⟨["x"], [4], [[4, 3]], ["y"], [4], [[4, 2]], [0, 0], [0]⟩
        [[4, 3]] 1 5
      = (Except.ok (),
         (List.range 1).map Ev.allocOutput ++ (Ev.initModel :: singleShotTrace)) :=
  ⟨by decide,
   claim_C10 ⟨["x"], [4], [[4, 3]], ["y"], [4], [[4, 2]], [0, 0], [0]⟩ [[4, 3]] 1 5
     (by decide) (by decide) (by decide) (by decide) (by decide) (by decide)
     (by decide) (Or.inl (by decide))⟩


end NeuronTF
